import Mathlib

/-!
Verification of the Web Storage polyfill in
react/features/base/lib-jitsi-meet/native/Storage.js.

The class keeps an in-memory JS Map of items, optionally namespaced in the
asynchronous backend (AsyncStorage) by a key prefix, and reconciles the
backend contents into the map once at construction with an insert-if-absent
merge.  The embedding below models the JS Map as an insertion-ordered
association list, the key prefix argument as a three-valued type
(undefined / null / string), and each backend primitive invocation as an
element of an emitted call list.
-/

set_option autoImplicit false

/-- A value held in the in-memory map: a JS string, or JS null (modelled as
none).  setItem always stores a string, but the merge loop of the constructor
stores whatever value multiGet delivered, which can be null. -/
abbrev JVal : Type := Option String

/-- JS Map lookup (has/get) on an insertion-ordered association list. -/
def jmapFind : List (String × JVal) → String → Option JVal
  | [], _ => none
  | (k, v) :: rest, key => if k = key then some v else jmapFind rest key

/-- JS Map.has. -/
def jmapHas (m : List (String × JVal)) (k : String) : Bool :=
  (jmapFind m k).isSome

/-- JS Map.set: if the key is present its value is updated in place (the
insertion position is kept), otherwise the pair is appended at the end. -/
def jmapSet : List (String × JVal) → String → JVal → List (String × JVal)
  | [], key, v => [(key, v)]
  | (k, w) :: rest, key, v =>
      if k = key then (k, v) :: rest else (k, w) :: jmapSet rest key v

/-- JS Map.delete.  Every reachable map has unique keys (set and this
deletion both preserve uniqueness and the map starts empty), so removing
every occurrence of the key coincides with Map.delete. -/
def jmapDelete : List (String × JVal) → String → List (String × JVal)
  | [], _ => []
  | (k, v) :: rest, key =>
      if k = key then jmapDelete rest key else (k, v) :: jmapDelete rest key

/-- The constructor argument keyPrefix of Storage.js, typed ?string in Flow:
a string, null, or undefined (omitted). -/
inductive JsPfx
  | undefined
  | null
  | str (s : String)
deriving DecidableEq

/-- The guard used throughout the source, typeof this keyPrefix field
=== undefined: only the undefined value passes; null does not. -/
def JsPfx.isUndefined : JsPfx → Bool
  | .undefined => true
  | _ => false

/-- The JS String(...) coercion applied to the key prefix when building
backend-facing key names, and implicitly by startsWith during the
reconciliation filter. -/
def JsPfx.toJSString : JsPfx → String
  | .undefined => "undefined"
  | .null => "null"
  | .str s => s

/-- The start index used by the merge loop: it computes
keyPrefix && keyPrefix.length and passes it to substring.  For a null
prefix the conjunction yields null and substring(null) starts at 0; for a
string the conjunction yields its length (an empty string is falsy, but
substring of the empty string also starts at 0, so the value agrees). -/
def JsPfx.subStart : JsPfx → Nat
  | .str s => s.length
  | _ => 0

/-- One invocation of a backend (AsyncStorage) primitive. -/
inductive BackendCall
  | enumerateKeys
  | multiGet (keys : List String)
  | setOne (key value : String)
  | removeOne (key : String)
deriving DecidableEq

/-- The Storage instance state.  The source fields are named with a leading
underscore; they are the items Map and the key prefix. -/
structure Storage where
  items : List (String × JVal)
  pfx : JsPfx
deriving DecidableEq

/-- getItem: the items value if the key is present, else null.  A stored
null (possible only via the merge loop) and an absent key both yield none. -/
def Storage.getItem (s : Storage) (key : String) : JVal :=
  match jmapFind s.items key with
  | some v => v
  | none => none

/-- setItem: coerce the value to a string (the argument is already a string
here, on which the JS String coercion is the identity), store it in the map
synchronously, and, unless the key prefix is undefined, fire a backend
set-one call for the prefixed key name. -/
def Storage.setItem (s : Storage) (key value : String) :
    Storage × List BackendCall :=
  ({ s with items := jmapSet s.items key (some value) },
   if s.pfx.isUndefined then []
   else [BackendCall.setOne (s.pfx.toJSString ++ key) value])

/-- removeItem: delete the key from the map synchronously and, unless the
key prefix is undefined, fire a backend remove-one call for the prefixed
key name. -/
def Storage.removeItem (s : Storage) (key : String) :
    Storage × List BackendCall :=
  ({ s with items := jmapDelete s.items key },
   if s.pfx.isUndefined then []
   else [BackendCall.removeOne (s.pfx.toJSString ++ key)])

/-- One iteration of the clear loop: removeItem on the visited key,
accumulating the emitted backend calls. -/
def clearStep (acc : Storage × List BackendCall) (k : String) :
    Storage × List BackendCall :=
  let r := acc.1.removeItem k
  (r.1, acc.2 ++ r.2)

/-- clear: iterate the keys of the items Map, calling removeItem on each.
The source iterates the live Map while deleting; since each step deletes
exactly the key just visited, JS Map iteration still visits every key that
was present at the start, so folding over the initial key list is the
faithful rendering. -/
def Storage.clear (s : Storage) : Storage × List BackendCall :=
  (s.items.map Prod.fst).foldl clearStep (s, [])

/-- The loop body of key(n): let i = 0, return the visited name once
i++ === n. -/
def keyLoop : List String → Int → Int → Option String
  | [], _, _ => none
  | k :: rest, i, n => if i = n then some k else keyLoop rest (i + 1) n

/-- The names a JS for-in loop visits on the object returned by
Map.prototype.keys(): a Map iterator has no enumerable own properties and
its prototype methods are non-enumerable, so for-in visits nothing.  The
source uses for-in (not for-of) over the keys() iterator. -/
def forInNames (_m : List (String × JVal)) : List String := []

/-- key(n): the source loops for-in over the Map keys iterator, so the loop
body never runs and the function always falls through to undefined. -/
def Storage.key (s : Storage) (n : Int) : Option String :=
  keyLoop (forInNames s.items) 0 n

/-- The length getter: Map.size. -/
def Storage.length (s : Storage) : Nat :=
  s.items.length

/-- Backend (AsyncStorage) contents at construction time: an association
list of persisted pairs. -/
def backendLookup : List (String × String) → String → Option String
  | [], _ => none
  | (k, v) :: rest, key => if k = key then some v else backendLookup rest key

/-- JS String.prototype.startsWith with no position argument: the search
string (already coerced to a string) occurs at the very beginning. -/
def jsStartsWith (s pre : String) : Bool :=
  pre.data.isPrefixOf s.data

/-- getAllKeys followed by the filter of the constructor: keep the backend
keys that start with the String coercion of the key prefix. -/
def reconKeys (backend : List (String × String)) (p : JsPfx) : List String :=
  (backend.map Prod.fst).filter fun k => jsStartsWith k p.toJSString

/-- multiGet: for each requested key, the pair of the key and the stored
string, or null for a key the backend does not hold. -/
def multiGetResult (backend : List (String × String)) (keys : List String) :
    List (String × JVal) :=
  keys.map fun k => (k, backendLookup backend k)

/-- The merge loop of the constructor: for each delivered pair, strip the
prefix length from the key and insert the value only if the key is not
already present in the items Map. -/
def mergeStep (plen : Nat) :
    List (String × JVal) → List (String × JVal) → List (String × JVal)
  | its, [] => its
  | its, (bk, v) :: rest =>
      let k := bk.drop plen
      mergeStep plen (if jmapHas its k then its else jmapSet its k v) rest

/-- Apply the merge loop to a Storage instance for a given multiGet result. -/
def Storage.mergeResult (s : Storage) (result : List (String × JVal)) :
    Storage :=
  { s with items := mergeStep s.pfx.subStart s.items result }

/-- The whole reconciliation task against a fixed backend, run to
completion: nothing when the key prefix is undefined, otherwise the merge
of the multiGet result for the filtered key list. -/
def Storage.reconcile (s : Storage) (backend : List (String × String)) :
    Storage :=
  if s.pfx.isUndefined then s
  else s.mergeResult (multiGetResult backend (reconKeys backend s.pfx))

/-- The backend primitives the constructor invokes: none when the key
prefix is undefined, otherwise the key enumeration followed by the bulk
get of the filtered keys. -/
def reconCalls (backend : List (String × String)) (p : JsPfx) :
    List BackendCall :=
  if p.isUndefined then []
  else [BackendCall.enumerateKeys, BackendCall.multiGet (reconKeys backend p)]

/-- Where, if anywhere, the reconciliation task fails: the source attaches
only success callbacks to the two backend promises, so a rejection simply
means the rest of the chain never runs. -/
inductive ReconFailure
  | ok
  | enumerateFails
  | multiGetFails
deriving DecidableEq

/-- The reconciliation task under a given failure mode: a rejection of
getAllKeys or of multiGet leaves the items Map untouched (the success
callback holding the merge loop never runs); otherwise the task completes
as in reconcile. -/
def Storage.reconcileUnder (s : Storage) (f : ReconFailure)
    (backend : List (String × String)) : Storage :=
  if s.pfx.isUndefined then s
  else
    match f with
    | .ok => s.mergeResult (multiGetResult backend (reconKeys backend s.pfx))
    | .enumerateFails => s
    | .multiGetFails => s

/-- The multiGet results that were successfully delivered under a failure
mode: everything on success, nothing when either backend step failed or no
reconciliation was started. -/
def successfulResult (f : ReconFailure) (backend : List (String × String))
    (p : JsPfx) : List (String × JVal) :=
  if p.isUndefined then []
  else
    match f with
    | .ok => multiGetResult backend (reconKeys backend p)
    | .enumerateFails => []
    | .multiGetFails => []

/-- A caller-issued mutation. -/
inductive COp
  | set (k v : String)
  | remove (k : String)
  | clear
deriving DecidableEq

/-- Dispatch one caller operation. -/
def Storage.applyOp (s : Storage) : COp → Storage × List BackendCall
  | .set k v => s.setItem k v
  | .remove k => s.removeItem k
  | .clear => s.clear

/-- Run a sequence of caller operations, accumulating the emitted backend
calls. -/
def runOps (s : Storage) : List COp → Storage × List BackendCall
  | [] => (s, [])
  | op :: rest =>
      let r := s.applyOp op
      let r2 := runOps r.1 rest
      (r2.1, r.2 ++ r2.2)

/-- The net effect of one caller operation on one key: untouched, removed,
or set to a value. -/
def COp.effectOn (op : COp) (k : String) : Option (Option JVal) :=
  match op with
  | .set k2 v => if k2 = k then some (some (some v)) else none
  | .remove k2 => if k2 = k then some none else none
  | .clear => some none

/-- The net effect of a caller operation sequence on one key: the effect of
the last operation that touches it, if any. -/
def netEffect : List COp → String → Option (Option JVal)
  | [], _ => none
  | op :: ops, k =>
      match netEffect ops k with
      | some r => some r
      | none => op.effectOn k

/-- What the merge loop would contribute for a key: the value of the first
delivered pair whose prefix-stripped key matches (later matching pairs find
the key present and are discarded). -/
def mergeLookup (plen : Nat) : List (String × JVal) → String → Option JVal
  | [], _ => none
  | (bk, v) :: rest, k =>
      if bk.drop plen = k then some v else mergeLookup plen rest k

theorem jmapFind_set (m : List (String × JVal)) (k2 : String) (v : JVal)
    (k : String) :
    jmapFind (jmapSet m k2 v) k = if k2 = k then some v else jmapFind m k := by
  induction m with
  | nil => simp [jmapSet, jmapFind]
  | cons hd tl ih =>
      obtain ⟨a, b⟩ := hd
      by_cases hak : a = k2
      · subst hak
        by_cases h : a = k <;> simp [jmapSet, jmapFind, h]
      · by_cases h : a = k
        · have hk2 : ¬ k2 = k := fun hh => hak (h.trans hh.symm)
          have hka2 : ¬ k = k2 := fun hh => hk2 hh.symm
          simp [jmapSet, jmapFind, hak, h, hk2, hka2]
        · simp [jmapSet, jmapFind, hak, h, ih]

theorem jmapFind_delete (m : List (String × JVal)) (k2 k : String) :
    jmapFind (jmapDelete m k2) k = if k2 = k then none else jmapFind m k := by
  induction m with
  | nil => simp [jmapDelete, jmapFind]
  | cons hd tl ih =>
      obtain ⟨a, b⟩ := hd
      by_cases hak : a = k2
      · subst hak
        by_cases h : a = k
        · simp [h] at ih
          simp [jmapDelete, jmapFind, h, ih]
        · simp [jmapDelete, jmapFind, h, ih]
      · by_cases h : a = k
        · have hk2 : ¬ k2 = k := fun hh => hak (h.trans hh.symm)
          have hka2 : ¬ k = k2 := fun hh => hk2 hh.symm
          simp [jmapDelete, jmapFind, hak, h, hk2, hka2]
        · simp [jmapDelete, jmapFind, hak, h, ih]

theorem jmapSet_length_absent (m : List (String × JVal)) (k : String)
    (v : JVal) (h : jmapHas m k = false) :
    (jmapSet m k v).length = m.length + 1 := by
  induction m with
  | nil => simp [jmapSet]
  | cons hd tl ih =>
      obtain ⟨a, b⟩ := hd
      by_cases hak : a = k
      · exfalso
        simp [jmapHas, jmapFind, hak] at h
      · simp only [jmapHas, jmapFind, hak, if_false] at h
        simp [jmapSet, hak, ih h]

theorem mem_jmapDelete (m : List (String × JVal)) (k2 : String)
    (p : String × JVal) (hp : p ∈ jmapDelete m k2) : p ∈ m ∧ p.1 ≠ k2 := by
  induction m with
  | nil => simp [jmapDelete] at hp
  | cons hd tl ih =>
      obtain ⟨a, b⟩ := hd
      by_cases hak : a = k2
      · simp only [jmapDelete, hak, if_true] at hp
        rcases ih hp with ⟨h1, h2⟩
        exact ⟨List.mem_cons_of_mem _ h1, h2⟩
      · simp only [jmapDelete, hak, if_false, List.mem_cons] at hp
        rcases hp with h | h
        · subst h
          exact ⟨List.mem_cons_self _ _, hak⟩
        · rcases ih h with ⟨h1, h2⟩
          exact ⟨List.mem_cons_of_mem _ h1, h2⟩

theorem foldl_jmapDelete_nil (ks : List String) (m : List (String × JVal))
    (h : ∀ p ∈ m, p.1 ∈ ks) :
    ks.foldl (fun m2 k => jmapDelete m2 k) m = [] := by
  induction ks generalizing m with
  | nil =>
      cases m with
      | nil => rfl
      | cons hd tl =>
          exact absurd (h hd (List.mem_cons_self _ _)) (List.not_mem_nil _)
  | cons k ks ih =>
      simp only [List.foldl_cons]
      apply ih
      intro p hp
      rcases mem_jmapDelete m k p hp with ⟨h1, h2⟩
      rcases List.mem_cons.mp (h p h1) with h3 | h3
      · exact absurd h3 h2
      · exact h3

theorem clearFold_items (ks : List String) (acc : Storage × List BackendCall) :
    ((ks.foldl clearStep acc).1).items
      = ks.foldl (fun m2 k => jmapDelete m2 k) acc.1.items := by
  induction ks generalizing acc with
  | nil => rfl
  | cons k ks ih =>
      simp only [List.foldl_cons]
      rw [ih]
      rfl

theorem clearFold_pfx (ks : List String) (acc : Storage × List BackendCall) :
    ((ks.foldl clearStep acc).1).pfx = acc.1.pfx := by
  induction ks generalizing acc with
  | nil => rfl
  | cons k ks ih =>
      simp only [List.foldl_cons]
      rw [ih]
      rfl

theorem clearFold_calls (ks : List String) (acc : Storage × List BackendCall)
    (h : acc.1.pfx = JsPfx.undefined) :
    (ks.foldl clearStep acc).2 = acc.2 := by
  induction ks generalizing acc with
  | nil => rfl
  | cons k ks ih =>
      simp only [List.foldl_cons]
      rw [ih]
      · simp [clearStep, Storage.removeItem, h, JsPfx.isUndefined]
      · simp [clearStep, Storage.removeItem, h]

theorem clear_items (s : Storage) : ((s.clear).1).items = [] := by
  rw [Storage.clear, clearFold_items]
  apply foldl_jmapDelete_nil
  intro p hp
  exact List.mem_map_of_mem Prod.fst hp

theorem clear_pfx (s : Storage) : ((s.clear).1).pfx = s.pfx := by
  rw [Storage.clear, clearFold_pfx]

theorem applyOp_pfx (s : Storage) (op : COp) :
    ((s.applyOp op).1).pfx = s.pfx := by
  cases op with
  | set k v => rfl
  | remove k => rfl
  | clear => exact clear_pfx s

theorem runOps_pfx (ops : List COp) (s : Storage) :
    ((runOps s ops).1).pfx = s.pfx := by
  induction ops generalizing s with
  | nil => rfl
  | cons op ops ih =>
      show ((runOps ((s.applyOp op).1) ops).1).pfx = s.pfx
      rw [ih, applyOp_pfx]

theorem applyOp_find (s : Storage) (op : COp) (k : String) :
    jmapFind ((s.applyOp op).1).items k
      = match op.effectOn k with
        | some r => r
        | none => jmapFind s.items k := by
  cases op with
  | set k2 v =>
      show jmapFind (jmapSet s.items k2 (some v)) k = _
      rw [jmapFind_set]
      by_cases h : k2 = k <;> simp [COp.effectOn, h]
  | remove k2 =>
      show jmapFind (jmapDelete s.items k2) k = _
      rw [jmapFind_delete]
      by_cases h : k2 = k <;> simp [COp.effectOn, h]
  | clear =>
      rw [show (s.applyOp COp.clear) = s.clear from rfl, clear_items]
      simp [COp.effectOn, jmapFind]

theorem runOps_find (ops : List COp) (s : Storage) (k : String) :
    jmapFind ((runOps s ops).1).items k
      = match netEffect ops k with
        | some r => r
        | none => jmapFind s.items k := by
  induction ops generalizing s with
  | nil => rfl
  | cons op ops ih =>
      show jmapFind ((runOps ((s.applyOp op).1) ops).1).items k = _
      rw [ih, applyOp_find]
      show _ = (match (match netEffect ops k with
        | some r => some r
        | none => op.effectOn k) with
        | some r => r
        | none => jmapFind s.items k)
      cases netEffect ops k with
      | some r => rfl
      | none => cases op.effectOn k <;> rfl

theorem netEffect_append (l1 l2 : List COp) (k : String) :
    netEffect (l1 ++ l2) k
      = match netEffect l2 k with
        | some r => some r
        | none => netEffect l1 k := by
  induction l1 with
  | nil =>
      cases h : netEffect l2 k <;> simp [netEffect, h]
  | cons op l1 ih =>
      show (match netEffect (l1 ++ l2) k with
        | some r => some r
        | none => op.effectOn k) = _
      rw [ih]
      cases netEffect l2 k with
      | some r => rfl
      | none => rfl

theorem mergeStep_find (plen : Nat) (result its : List (String × JVal))
    (k : String) :
    jmapFind (mergeStep plen its result) k
      = match jmapFind its k with
        | some v => some v
        | none => mergeLookup plen result k := by
  induction result generalizing its with
  | nil =>
      cases h : jmapFind its k <;> simp [mergeStep, mergeLookup, h]
  | cons pr rest ih =>
      obtain ⟨bk, v⟩ := pr
      show jmapFind (mergeStep plen
        (if jmapHas its (bk.drop plen) then its
         else jmapSet its (bk.drop plen) v) rest) k = _
      rw [ih]
      by_cases hh : jmapHas its (bk.drop plen)
      · rw [if_pos hh]
        by_cases hk : bk.drop plen = k
        · subst hk
          rcases Option.isSome_iff_exists.mp hh with ⟨w, hw⟩
          simp [jmapHas] at hh
          rcases Option.isSome_iff_exists.mp hh with ⟨w2, hw2⟩
          simp [hw2, mergeLookup]
        · simp [mergeLookup, hk]
      · rw [if_neg hh]
        rw [jmapFind_set]
        by_cases hk : bk.drop plen = k
        · subst hk
          have hnone : jmapFind its (bk.drop plen) = none :=
            Option.not_isSome_iff_eq_none.mp (by simpa [jmapHas] using hh)
          simp [hnone, mergeLookup]
        · simp [mergeLookup, hk]

theorem reconcile_find (s : Storage) (backend : List (String × String))
    (k : String) :
    jmapFind ((s.reconcile backend)).items k
      = if s.pfx.isUndefined then jmapFind s.items k
        else
          match jmapFind s.items k with
          | some v => some v
          | none =>
              mergeLookup s.pfx.subStart
                (multiGetResult backend (reconKeys backend s.pfx)) k := by
  rw [Storage.reconcile]
  by_cases h : s.pfx.isUndefined
  · simp [h]
  · simp only [h, Bool.false_eq_true, if_false]
    show jmapFind (mergeStep s.pfx.subStart s.items
      (multiGetResult backend (reconKeys backend s.pfx))) k = _
    rw [mergeStep_find]

/-- Spec-side formula, the claim as stated: at any reachable state the items
Map is the union of all caller operations issued so far, removals included
and regardless of their timing relative to the merge, and the merged backend
entries, with the caller side winning. -/
def claimedLookup (backend : List (String × String)) (p : JsPfx)
    (ops1 ops2 : List COp) (k : String) : Option JVal :=
  match netEffect (ops1 ++ ops2) k with
  | some r => r
  | none =>
      if p.isUndefined then none
      else
        mergeLookup p.subStart
          (multiGetResult backend (reconKeys backend p)) k

/-- Spec-side formula, amended: caller operations issued after the merge
decide; otherwise a key the caller left present at merge time keeps its
caller value; otherwise the merged backend entry fills the key, which can
resurrect a key the caller had removed before the merge ran. -/
def mergeAwareLookup (backend : List (String × String)) (p : JsPfx)
    (ops1 ops2 : List COp) (k : String) : Option JVal :=
  match netEffect ops2 k with
  | some r => r
  | none =>
      let base : Option JVal :=
        match netEffect ops1 k with
        | some r => r
        | none => none
      if p.isUndefined then base
      else
        match base with
        | some v => some v
        | none =>
            mergeLookup p.subStart
              (multiGetResult backend (reconKeys backend p)) k

/-- C1: caller-write-wins race.  For any operations issued before a final
setItem of the key, and any further pre-merge operations not touching the
key, once the reconciliation merge completes the read returns the value the
caller wrote, never the backend value: the merge never overwrites a key
already present in the items Map. -/
theorem C1_caller_write_wins (backend : List (String × String)) (p : JsPfx)
    (ops0 ops1 : List COp) (k v : String)
    (h : netEffect ops1 k = none) :
    ((runOps (Storage.mk [] p) (ops0 ++ (COp.set k v :: ops1))).1.reconcile
        backend).getItem k = some v := by
  have hfind : jmapFind ((runOps (Storage.mk [] p)
      (ops0 ++ (COp.set k v :: ops1))).1).items k = some (some v) := by
    rw [runOps_find, netEffect_append]
    show (match (match netEffect (COp.set k v :: ops1) k with
      | some r => some r
      | none => netEffect ops0 k) with
      | some r => r
      | none => jmapFind (Storage.mk [] p).items k) = some (some v)
    show (match (match (match netEffect ops1 k with
      | some r => some r
      | none => (COp.set k v).effectOn k) with
      | some r => some r
      | none => netEffect ops0 k) with
      | some r => r
      | none => jmapFind (Storage.mk [] p).items k) = some (some v)
    rw [h]
    simp [COp.effectOn]
  rw [Storage.getItem, reconcile_find, hfind]
  by_cases hp : ((runOps (Storage.mk [] p)
      (ops0 ++ (COp.set k v :: ops1))).1).pfx.isUndefined <;> simp [hp]

/-- Witness for C1 at the concrete scenario of the spec: backend already
holds the pair pa with value old under the prefix p, the caller sets key a
to new before the merge, and the read after the merge returns new. -/
theorem C1_witness :
    netEffect ([] : List COp) "a" = none
    ∧ ((runOps (Storage.mk [] (JsPfx.str "p"))
          ([] ++ (COp.set "a" "new" :: []))).1.reconcile
        [("pa", "old")]).getItem "a" = some "new" :=
  ⟨rfl, C1_caller_write_wins [("pa", "old")] (JsPfx.str "p") [] [] "a" "new" rfl⟩

/-- C2 (amended): characterization of every reachable state.  For any
operations ops1 issued before the reconciliation merge and ops2 issued
after it, the items entry of each key is: the last caller operation of ops2
touching it, if any; otherwise the caller value it had at merge time, which
the merge never overwrites; otherwise the merged backend entry, which in
particular re-inserts a key the caller removed before the merge — caller
removals issued before the merge do not take precedence. -/
theorem C2_reachable_state_characterization (backend : List (String × String))
    (p : JsPfx) (ops1 ops2 : List COp) (k : String) :
    jmapFind ((runOps ((runOps (Storage.mk [] p) ops1).1.reconcile backend)
        ops2).1).items k = mergeAwareLookup backend p ops1 ops2 k := by
  rw [runOps_find, mergeAwareLookup]
  cases netEffect ops2 k with
  | some r => rfl
  | none =>
      show jmapFind (((runOps (Storage.mk [] p) ops1).1.reconcile
        backend)).items k = _
      rw [reconcile_find, runOps_pfx]
      have hbase : jmapFind ((runOps (Storage.mk [] p) ops1).1).items k
          = (match netEffect ops1 k with
             | some r => r
             | none => none) := by
        rw [runOps_find]
        cases netEffect ops1 k with
        | some r => rfl
        | none => rfl
      rw [hbase]

/-- C2 counterexample: the claim as stated says a caller removal takes
precedence over the merged backend data regardless of timing, so after
setItem then removeItem of key a before the merge, the claim demands the
key stay absent; the code instead lets the merge re-insert the backend
value old. -/
theorem C2_counterexample :
    claimedLookup [("pa", "old")] (JsPfx.str "p")
        [COp.set "a" "new", COp.remove "a"] [] "a" = none
    ∧ jmapFind ((runOps ((runOps (Storage.mk [] (JsPfx.str "p"))
          [COp.set "a" "new", COp.remove "a"]).1.reconcile
          [("pa", "old")]) []).1).items "a" = some (some "old") := by
  constructor
  · decide
  · decide

/-- C3: write-then-read.  In every state, whatever the backend contents or
the progress of the reconciliation task, a setItem immediately followed by
a getItem of the same key returns the written string. -/
theorem C3_write_then_read (s : Storage) (k v : String) :
    ((s.setItem k v).1).getItem k = some v := by
  show (match jmapFind (jmapSet s.items k (some v)) k with
    | some w => w
    | none => none) = some v
  rw [jmapFind_set]
  simp

/-- C4: the reconciliation filters to the configured prefix and strips it.
With prefix p over a backend holding px, py and the foreign key qz, the
merged instance serves x and y, excludes z, and its item keys carry no
prefix. -/
theorem C4_recon_filters_and_strips :
    ((Storage.mk [] (JsPfx.str "p")).reconcile
        [("px", "1"), ("py", "2"), ("qz", "3")]).getItem "x" = some "1"
    ∧ ((Storage.mk [] (JsPfx.str "p")).reconcile
        [("px", "1"), ("py", "2"), ("qz", "3")]).getItem "y" = some "2"
    ∧ ((Storage.mk [] (JsPfx.str "p")).reconcile
        [("px", "1"), ("py", "2"), ("qz", "3")]).getItem "z" = none
    ∧ ((Storage.mk [] (JsPfx.str "p")).reconcile
        [("px", "1"), ("py", "2"), ("qz", "3")]).items.map Prod.fst
      = ["x", "y"] := by
  refine ⟨by decide, by decide, by decide, by decide⟩

/-- C5: the source of key(n) loops with for-in (not for-of) over the Map
keys iterator, which visits no properties, so key always returns undefined:
here a storage holding one item still yields undefined for key(0), against
the documented contract of returning the name of the nth key. -/
theorem C5_key_always_undefined :
    (((Storage.mk [] JsPfx.undefined).setItem "a" "1").1).length = 1
    ∧ (((Storage.mk [] JsPfx.undefined).setItem "a" "1").1).key 0 = none := by
  constructor
  · decide
  · decide

/-- C6: clear empties the storage.  From any state, after clear the length
is zero and every key reads as absent, even though the loop deletes keys
from the Map it iterates. -/
theorem C6_clear_empties (s : Storage) :
    ((s.clear).1).length = 0
    ∧ ∀ k : String, ((s.clear).1).getItem k = none := by
  constructor
  · show ((s.clear).1).items.length = 0
    rw [clear_items]
    rfl
  · intro k
    show (match jmapFind ((s.clear).1).items k with
      | some v => v
      | none => none) = none
    rw [clear_items]
    rfl

theorem applyOp_calls_undefined (s : Storage) (op : COp)
    (h : s.pfx = JsPfx.undefined) : (s.applyOp op).2 = [] := by
  cases op with
  | set k v => simp [Storage.applyOp, Storage.setItem, h, JsPfx.isUndefined]
  | remove k => simp [Storage.applyOp, Storage.removeItem, h, JsPfx.isUndefined]
  | clear =>
      show (s.clear).2 = []
      rw [Storage.clear, clearFold_calls]
      exact h

theorem runOps_calls_undefined (ops : List COp) (s : Storage)
    (h : s.pfx = JsPfx.undefined) : (runOps s ops).2 = [] := by
  induction ops generalizing s with
  | nil => rfl
  | cons op ops ih =>
      show (s.applyOp op).2 ++ (runOps (s.applyOp op).1 ops).2 = []
      rw [applyOp_calls_undefined s op h, ih (s.applyOp op).1]
      · rfl
      · rw [applyOp_pfx]
        exact h

/-- C7: no-prefix isolation.  Constructed with the key prefix omitted, the
instance invokes no backend primitive: the constructor starts no
reconciliation calls, and every sequence of setItem, removeItem and clear
operations emits no backend calls (getItem, key and length read only the
in-memory map by definition). -/
theorem C7_no_pfx_isolation (backend : List (String × String))
    (ops : List COp) :
    reconCalls backend JsPfx.undefined = []
    ∧ (runOps (Storage.mk [] JsPfx.undefined) ops).2 = [] :=
  ⟨rfl, runOps_calls_undefined ops (Storage.mk [] JsPfx.undefined) rfl⟩

/-- C8: backend failures are invisible.  Under every failure mode of the
reconciliation chain (key enumeration rejecting, bulk get rejecting, or
success), the resulting state is exactly the merge of the multiGet results
that were successfully delivered: a failed step merely means nothing is
merged, and no error reaches the caller (every caller operation is a total
function of the in-memory state alone). -/
theorem C8_backend_failures_invisible (f : ReconFailure)
    (backend : List (String × String)) (s : Storage) :
    s.reconcileUnder f backend
      = s.mergeResult (successfulResult f backend s.pfx) := by
  unfold Storage.reconcileUnder successfulResult
  by_cases hp : s.pfx.isUndefined
  · simp only [hp, if_true]
    rfl
  · simp only [hp, Bool.false_eq_true, if_false]
    cases f with
    | ok => rfl
    | enumerateFails => rfl
    | multiGetFails => rfl

/-- C9: a null key prefix is treated as present.  Construction with null
starts the reconciliation calls (filtering backend keys by the string
null), and the write-through paths of setItem and removeItem fire backend
calls whose key names carry the string null as the effective prefix. -/
theorem C9_null_pfx_active (backend : List (String × String))
    (its : List (String × JVal)) (k v : String) :
    reconCalls backend JsPfx.null
      = [BackendCall.enumerateKeys,
         BackendCall.multiGet ((backend.map Prod.fst).filter
           fun bk => jsStartsWith bk "null")]
    ∧ ((Storage.mk its JsPfx.null).setItem k v).2
      = [BackendCall.setOne ("null" ++ k) v]
    ∧ ((Storage.mk its JsPfx.null).removeItem k).2
      = [BackendCall.removeOne ("null" ++ k)] :=
  ⟨rfl, rfl, rfl⟩

/-- C10: merged values are stored verbatim, so a present key can read as
absent.  If multiGet delivers a null value for a key not yet in items, the
merge inserts null: afterwards the key is present and counted by length,
yet getItem returns null, the same sentinel as for an absent key. -/
theorem C10_merge_stores_null_verbatim (s : Storage) (bk : String)
    (h : jmapHas s.items (bk.drop s.pfx.subStart) = false) :
    jmapHas ((s.mergeResult [(bk, none)]).items) (bk.drop s.pfx.subStart)
        = true
    ∧ (s.mergeResult [(bk, none)]).getItem (bk.drop s.pfx.subStart) = none
    ∧ (s.mergeResult [(bk, none)]).length = s.length + 1 := by
  have hitems : (s.mergeResult [(bk, none)]).items
      = jmapSet s.items (bk.drop s.pfx.subStart) none := by
    show mergeStep s.pfx.subStart s.items [(bk, none)] = _
    simp [mergeStep, h]
  have hfind : jmapFind ((s.mergeResult [(bk, none)]).items)
      (bk.drop s.pfx.subStart) = some none := by
    rw [hitems, jmapFind_set, if_pos rfl]
  refine ⟨?_, ?_, ?_⟩
  · simp [jmapHas, hfind]
  · show (match jmapFind ((s.mergeResult [(bk, none)]).items)
        (bk.drop s.pfx.subStart) with
      | some v => v
      | none => none) = none
    rw [hfind]
  · show ((s.mergeResult [(bk, none)]).items).length = s.items.length + 1
    rw [hitems]
    exact jmapSet_length_absent s.items _ none h

/-- Witness for C10: merging the delivered pair pa with a null value into
an empty instance with prefix p makes key a present with a null value. -/
theorem C10_witness :
    jmapHas (Storage.mk [] (JsPfx.str "p")).items
        ("pa".drop (Storage.mk [] (JsPfx.str "p")).pfx.subStart) = false
    ∧ (jmapHas (((Storage.mk [] (JsPfx.str "p")).mergeResult
            [("pa", none)]).items)
          ("pa".drop (Storage.mk [] (JsPfx.str "p")).pfx.subStart) = true
      ∧ ((Storage.mk [] (JsPfx.str "p")).mergeResult
            [("pa", none)]).getItem
          ("pa".drop (Storage.mk [] (JsPfx.str "p")).pfx.subStart) = none
      ∧ ((Storage.mk [] (JsPfx.str "p")).mergeResult [("pa", none)]).length
        = (Storage.mk [] (JsPfx.str "p")).length + 1) :=
  ⟨by decide, C10_merge_stores_null_verbatim (Storage.mk [] (JsPfx.str "p"))
    "pa" (by decide)⟩
